import Mathlib

/-!
Verification of the report-bot program (`ai_reporter.py`) against its design
specification.  The program is embedded shallowly: the SQLite-backed report
cache becomes a list of rows manipulated by insert-or-replace, the SQL
`LIKE` filter becomes an executable pattern matcher, and the agent's pure
request-processing logic (scoring, best-candidate selection, trigger-based
parameter extraction, filename construction) becomes Lean functions.  Text
is modelled at the ASCII level, which covers all string constants appearing
in the program and the specification's scenarios.
-/

set_option maxHeartbeats 1000000
set_option linter.unusedVariables false

/-- ASCII lower-casing of one character: this is the case folding SQLite
applies inside `LIKE` and the effect of Python `str.lower()` on ASCII text. -/
def asciiLower (c : Char) : Char :=
  if 'A' ≤ c ∧ c ≤ 'Z' then Char.ofNat (c.toNat + 32) else c

/-- Lower-case a character list (the `.lower()` calls of the program). -/
def lowerList (cs : List Char) : List Char := cs.map asciiLower

/-- Does `needle` begin `hay`?  Helper for the substring test. -/
def seqStartsWith : List Char → List Char → Bool
  | [], _ => true
  | _ :: _, [] => false
  | a :: n, b :: h => a == b && seqStartsWith n h

/-- Python's substring operator `needle in hay` on character lists. -/
def seqContains (needle : List Char) : List Char → Bool
  | [] => seqStartsWith needle []
  | c :: h => seqStartsWith needle (c :: h) || seqContains needle h

/-- Whitespace characters recognised by Python `str.split()` on ASCII text. -/
def isWs (c : Char) : Bool :=
  c == ' ' || c == '\t' || c == '\n' || c == '\r' || c == '\x0b' || c == '\x0c'

/-- Accumulator-passing worker for `splitWs`; `cur` holds the reversed
characters of the token being read. -/
def splitWsAux : List Char → List Char → List (List Char)
  | [], cur => if cur.isEmpty then [] else [cur.reverse]
  | c :: rest, cur =>
    if isWs c then
      if cur.isEmpty then splitWsAux rest [] else cur.reverse :: splitWsAux rest []
    else splitWsAux rest (c :: cur)

/-- Python `str.split()` with no argument: splits on runs of whitespace and
produces no empty tokens. -/
def splitWs (cs : List Char) : List (List Char) := splitWsAux cs []

/-- Fuelled interpreter for SQLite `LIKE` matching: `%` matches any character
sequence, `_` matches exactly one character, and any other pattern character
compares ASCII-case-insensitively with one text character.  The fuel argument
only makes the recursion structural; `likeMatch` instantiates it with a
sufficient value and `likeMatchF_irrel` shows the value is irrelevant. -/
def likeMatchF : Nat → List Char → List Char → Bool
  | 0, _, _ => false
  | _ + 1, [], t => t.isEmpty
  | f + 1, p0 :: p, [] => p0 == '%' && likeMatchF f p []
  | f + 1, p0 :: p, t0 :: t =>
    if p0 == '%' then likeMatchF f p (t0 :: t) || likeMatchF f (p0 :: p) t
    else (p0 == '_' || asciiLower p0 == asciiLower t0) && likeMatchF f p t

/-- SQLite `LIKE` matching of pattern `p` against text `t`.  Every recursive
step of `likeMatchF` shortens the pattern or the text, so this fuel value
suffices. -/
def likeMatch (p t : List Char) : Bool := likeMatchF (p.length + t.length + 1) p t

theorem likeMatchF_irrel (f : Nat) : ∀ g p t, p.length + t.length < f →
    p.length + t.length < g → likeMatchF f p t = likeMatchF g p t := by
  induction f with
  | zero => intro g p t h _; exact absurd h (Nat.not_lt_zero _)
  | succ f ih =>
    intro g p t hf hg
    cases g with
    | zero => exact absurd hg (Nat.not_lt_zero _)
    | succ g =>
      cases p with
      | nil => cases t <;> rfl
      | cons p0 p =>
        cases t with
        | nil =>
          simp only [List.length_cons, List.length_nil] at hf hg
          simp only [likeMatchF]
          rw [ih g p [] (by simp only [List.length_nil]; omega)
              (by simp only [List.length_nil]; omega)]
        | cons t0 t =>
          simp only [List.length_cons] at hf hg
          simp only [likeMatchF]
          rw [ih g p (t0 :: t) (by simp only [List.length_cons]; omega)
                (by simp only [List.length_cons]; omega),
              ih g (p0 :: p) t (by simp only [List.length_cons]; omega)
                (by simp only [List.length_cons]; omega),
              ih g p t (by omega) (by omega)]

/-- Any sufficient fuel computes `likeMatch`. -/
theorem likeMatch_eq_F (f : Nat) (p t : List Char) (h : p.length + t.length < f) :
    likeMatch p t = likeMatchF f p t :=
  likeMatchF_irrel (p.length + t.length + 1) f p t (by omega) h

/-- Unfolding: the empty pattern matches exactly the empty text. -/
theorem likeMatch_nil (t : List Char) : likeMatch [] t = t.isEmpty := by
  cases t <;> rfl

/-- Unfolding: a nonempty pattern matches the empty text only when it starts
with a percent whose remainder matches the empty text. -/
theorem likeMatch_cons_nil (p0 : Char) (p : List Char) :
    likeMatch (p0 :: p) [] = (p0 == '%' && likeMatch p []) := by
  rw [likeMatch_eq_F (p.length + 2) (p0 :: p) []
      (by simp only [List.length_cons, List.length_nil]; omega),
    likeMatch_eq_F (p.length + 1) p [] (by simp only [List.length_nil]; omega)]
  rfl

/-- Unfolding: one step of matching against nonempty pattern and text. -/
theorem likeMatch_cons_cons (p0 t0 : Char) (p t : List Char) :
    likeMatch (p0 :: p) (t0 :: t) =
      if p0 == '%' then likeMatch p (t0 :: t) || likeMatch (p0 :: p) t
      else (p0 == '_' || asciiLower p0 == asciiLower t0) && likeMatch p t := by
  rw [likeMatch_eq_F (p.length + t.length + 3) (p0 :: p) (t0 :: t)
      (by simp only [List.length_cons]; omega),
    likeMatch_eq_F (p.length + t.length + 2) p (t0 :: t)
      (by simp only [List.length_cons]; omega),
    likeMatch_eq_F (p.length + t.length + 2) (p0 :: p) t
      (by simp only [List.length_cons]; omega),
    likeMatch_eq_F (p.length + t.length + 2) p t (by omega)]
  rfl

/-- `seqStartsWith` decides the prefix relation. -/
theorem seqStartsWith_iff (n : List Char) : ∀ h : List Char,
    seqStartsWith n h = true ↔ n <+: h := by
  induction n with
  | nil => intro h; simp [seqStartsWith, List.nil_prefix]
  | cons a n ih =>
    intro h
    cases h with
    | nil => simp [seqStartsWith, List.prefix_nil]
    | cons b h =>
      simp only [seqStartsWith, Bool.and_eq_true, beq_iff_eq, List.cons_prefix_cons, ih h]

/-- `seqContains` decides the infix (contiguous substring) relation. -/
theorem seqContains_iff (n : List Char) : ∀ h : List Char,
    seqContains n h = true ↔ n <:+: h := by
  intro h
  induction h with
  | nil => simp [seqContains, seqStartsWith_iff, List.prefix_nil, List.infix_nil]
  | cons c h ih =>
    simp only [seqContains, Bool.or_eq_true, seqStartsWith_iff, ih, List.infix_cons_iff]

/-- A bare percent pattern matches every text. -/
theorem likeMatch_percent_all : ∀ t : List Char, likeMatch ['%'] t = true := by
  intro t
  induction t with
  | nil => rfl
  | cons c t ih =>
    rw [likeMatch_cons_cons]
    simp [ih, likeMatch_nil]

/-- A pattern headed by percent matches a text exactly when some suffix of the
text matches the remaining pattern. -/
theorem likeMatch_percent_cons (p : List Char) : ∀ t : List Char,
    likeMatch ('%' :: p) t = true ↔ ∃ t₁ t₂, t = t₁ ++ t₂ ∧ likeMatch p t₂ = true := by
  intro t
  induction t with
  | nil =>
    rw [likeMatch_cons_nil]
    constructor
    · intro hm
      exact ⟨[], [], rfl, by simpa using hm⟩
    · rintro ⟨t₁, t₂, he, hm⟩
      obtain ⟨rfl, rfl⟩ := List.nil_eq_append_iff.mp he
      simpa using hm
  | cons c t ih =>
    rw [likeMatch_cons_cons]
    simp only [beq_self_eq_true, if_true, Bool.or_eq_true, ih]
    constructor
    · rintro (hm | ⟨t₁, t₂, rfl, hm⟩)
      · exact ⟨[], c :: t, rfl, hm⟩
      · exact ⟨c :: t₁, t₂, rfl, hm⟩
    · rintro ⟨t₁, t₂, he, hm⟩
      cases t₁ with
      | nil => exact Or.inl (by simpa using he ▸ hm)
      | cons a t₁ =>
        rw [List.cons_append] at he
        injection he with h1 h2
        exact Or.inr ⟨t₁, t₂, h2, hm⟩

/-- Characters that are not `LIKE` metacharacters. -/
def noMeta (cs : List Char) : Bool := cs.all (fun c => c != '%' && c != '_')


/-- For a metacharacter-free pattern followed by a final percent, matching
means the lower-cased pattern is a lower-cased prefix of the text. -/
theorem likeMatch_plain_percent (q : List Char) (hq : noMeta q = true) :
    ∀ t : List Char, likeMatch (q ++ ['%']) t = true ↔
      ∃ t₁ t₂, t = t₁ ++ t₂ ∧ lowerList t₁ = lowerList q := by
  induction q with
  | nil =>
    intro t
    simp only [List.nil_append, likeMatch_percent_all, true_iff]
    exact ⟨[], t, rfl, rfl⟩
  | cons c q ih =>
    simp only [noMeta, List.all_cons, Bool.and_eq_true, bne_iff_ne] at hq
    obtain ⟨⟨hcp, hcu⟩, hq⟩ := hq
    have hcp' : (c == '%') = false := beq_eq_false_iff_ne.mpr hcp
    have hcu' : (c == '_') = false := beq_eq_false_iff_ne.mpr hcu
    intro t
    cases t with
    | nil =>
      rw [List.cons_append, likeMatch_cons_nil, hcp']
      constructor
      · intro hm
        simp at hm
      · rintro ⟨t₁, t₂, he, hm⟩
        obtain ⟨rfl, rfl⟩ := List.nil_eq_append_iff.mp he
        simp [lowerList] at hm
    | cons d t =>
      rw [List.cons_append, likeMatch_cons_cons, hcp']
      simp only [Bool.false_eq_true, if_false, hcu', Bool.false_or, Bool.and_eq_true,
        beq_iff_eq, ih hq t]
      constructor
      · rintro ⟨hcd, t₁, t₂, rfl, hl⟩
        refine ⟨d :: t₁, t₂, rfl, ?_⟩
        simp only [lowerList, List.map_cons] at hl ⊢
        rw [hl, hcd]
      · rintro ⟨t₁, t₂, he, hl⟩
        cases t₁ with
        | nil =>
          exfalso
          simp [lowerList] at hl
        | cons a t₁ =>
          rw [List.cons_append] at he
          injection he with h1 h2
          subst h1
          subst h2
          simp only [lowerList, List.map_cons, List.cons.injEq] at hl
          exact ⟨hl.1.symm, t₁, t₂, rfl, hl.2⟩

/-- For a metacharacter-free query, the SQL pattern percent-query-percent
matches a text exactly when the lower-cased query is a contiguous substring
of the lower-cased text. -/
theorem likeMatch_wrapped_iff (q : List Char) (hq : noMeta q = true) (t : List Char) :
    likeMatch ('%' :: (q ++ ['%'])) t = true ↔ lowerList q <:+: lowerList t := by
  rw [likeMatch_percent_cons]
  constructor
  · rintro ⟨t₁, t₂, rfl, hm⟩
    obtain ⟨s₁, s₂, rfl, hl⟩ := (likeMatch_plain_percent q hq t₂).mp hm
    refine ⟨lowerList t₁, lowerList s₂, ?_⟩
    rw [← hl]
    simp [lowerList, List.append_assoc]
  · rintro ⟨s, u, hsu⟩
    have hsu' : List.map asciiLower t = s ++ (lowerList q ++ u) := by
      rw [show List.map asciiLower t = lowerList t from rfl, ← hsu, List.append_assoc]
    obtain ⟨t₁, rest, rfl, hs, hrest⟩ := List.map_eq_append_iff.mp hsu'
    obtain ⟨s₁, s₂, rfl, hs₁, hs₂⟩ := List.map_eq_append_iff.mp hrest
    exact ⟨t₁, s₁ ++ s₂, rfl, (likeMatch_plain_percent q hq _).mpr ⟨s₁, s₂, rfl, hs₁⟩⟩

/-- One row of the `reports` table, as `_build_reports_cache` stores it: six
text columns; `parameters` holds the serialized JSON text of the parameter
list and `last_modified` holds the upstream modification string (defaulted
to the empty string when absent). -/
structure ReportRow where
  store_id : String
  name : String
  path : String
  description : String
  parameters : String
  last_modified : String
deriving DecidableEq

/-- One item of the upstream catalog search response, with the fields
`_build_reports_cache` reads (`description` and `lastModified` already
defaulted to the empty string when absent, as `dict.get` does). -/
structure CatalogItem where
  id : String
  name : String
  path : String
  description : String
  lastModified : String
deriving DecidableEq

/-- The row `_build_reports_cache` inserts for one upstream item: the
`parameters` column always receives `json.dumps` of the empty list, the
two-character text consisting of the open and close brackets. -/
def rowOfItem (item : CatalogItem) : ReportRow :=
  { store_id := item.id, name := item.name, path := item.path,
    description := item.description, parameters := "[]",
    last_modified := item.lastModified }

/-- SQLite `INSERT OR REPLACE` on a table whose primary key is `store_id`:
the conflicting row (if any) is deleted and the new row is appended (it
receives a fresh rowid, so unordered scans list it last). -/
def insertOrReplace (rows : List ReportRow) (r : ReportRow) : List ReportRow :=
  rows.filter (fun x => x.store_id != r.store_id) ++ [r]

/-- `AIReporter._build_reports_cache`: creates the table if absent (so the
rows `prior` already in the database file survive) and upserts one row per
upstream result item, in response order. -/
def _build_reports_cache (prior : List ReportRow) (results : List CatalogItem) :
    List ReportRow :=
  results.foldl (fun rows item => insertOrReplace rows (rowOfItem item)) prior

/-- The `LIKE` test the SQL query of `search_reports` applies to one column:
`column LIKE '%' || query || '%'`, with the query text spliced in unescaped. -/
def sqlLike (query field : String) : Bool :=
  likeMatch ('%' :: (query.data ++ ['%'])) field.data

/-- The SELECT of `search_reports`: full scan keeping rows where name,
description or path matches the wrapped `LIKE` pattern. -/
def sqlSelect (cache : List ReportRow) (query : String) : List ReportRow :=
  cache.filter (fun r =>
    sqlLike query r.name || sqlLike query r.description || sqlLike query r.path)

/-- Whitespace characters the `json` module skips between tokens. -/
def jsonWsChar (c : Char) : Bool := c == ' ' || c == '\t' || c == '\n' || c == '\r'

/-- Skip JSON whitespace. -/
def skipJsonWs : List Char → List Char
  | [] => []
  | c :: cs => if jsonWsChar c then skipJsonWs cs else c :: cs

/-- Hexadecimal digit test, for the four digits of a `u` string escape. -/
def isHexDigitChar (c : Char) : Bool :=
  c.isDigit || ('a' ≤ c && c ≤ 'f') || ('A' ≤ c && c ≤ 'F')

/-- Accepts the remainder of a JSON string after its opening quote, in the
strict mode `json.loads` uses: unescaped control characters are rejected,
and a backslash must introduce one of the eight single-character escapes or
a `u` escape with four hexadecimal digits.  Returns the text after the
closing quote. -/
def jsonStringRest : List Char → Option (List Char)
  | [] => none
  | c :: cs =>
    if c == '"' then some cs
    else if c == '\\' then
      match cs with
      | [] => none
      | e :: cs2 =>
        if e == 'u' then
          match cs2 with
          | h1 :: h2 :: h3 :: h4 :: cs3 =>
            if isHexDigitChar h1 && isHexDigitChar h2 && isHexDigitChar h3
                && isHexDigitChar h4 then
              jsonStringRest cs3
            else none
          | _ => none
        else if e == '"' || e == '\\' || e == '/' || e == 'b' || e == 'f'
            || e == 'n' || e == 'r' || e == 't' then
          jsonStringRest cs2
        else none
    else if c.toNat < 32 then none
    else jsonStringRest cs

/-- Drop a (possibly empty) run of decimal digits. -/
def dropDigits : List Char → List Char
  | [] => []
  | c :: cs => if c.isDigit then dropDigits cs else c :: cs

/-- Consume an optional JSON fraction part (a dot followed by at least one
digit); on anything else, consume nothing. -/
def jsonFrac (cs : List Char) : List Char :=
  match cs with
  | '.' :: r =>
    match r with
    | d :: _ => if d.isDigit then dropDigits r else cs
    | [] => cs
  | _ => cs

/-- Consume an optional JSON exponent part (`e` or `E`, an optional sign,
at least one digit); on anything else, consume nothing. -/
def jsonExp (cs : List Char) : List Char :=
  match cs with
  | c :: r =>
    if c == 'e' || c == 'E' then
      match r with
      | s :: r2 =>
        if s == '+' || s == '-' then
          match r2 with
          | d :: _ => if d.isDigit then dropDigits r2 else cs
          | [] => cs
        else if s.isDigit then dropDigits r
        else cs
      | [] => cs
    else cs
  | [] => []

/-- Accepts a JSON number at the head, per the `json` module's grammar:
an optional minus, then zero or a nonzero-led digit run (no leading
zeros), then optional fraction and exponent.  Returns the rest. -/
def jsonNumberRest (cs : List Char) : Option (List Char) :=
  let cs1 := match cs with
    | '-' :: r => r
    | _ => cs
  match cs1 with
  | [] => none
  | c :: r =>
    if c == '0' then some (jsonExp (jsonFrac r))
    else if c.isDigit then some (jsonExp (jsonFrac (dropDigits r)))
    else none

/-- Strip a keyword from the head of the text. -/
def stripKeyword (kw cs : List Char) : Option (List Char) :=
  if seqStartsWith kw cs then some (cs.drop kw.length) else none

/-- After one array element: whitespace, then a comma and another element,
or the closing bracket.  The element parser is passed in; the fuel only
makes the loop structural (one comma is consumed per step, so any fuel
larger than the text length suffices). -/
def jsonArrTail (elem : List Char → Option (List Char)) :
    Nat → List Char → Option (List Char)
  | 0, _ => none
  | f + 1, cs =>
    match skipJsonWs cs with
    | ']' :: rest => some rest
    | ',' :: rest =>
      match elem rest with
      | none => none
      | some rest2 => jsonArrTail elem f rest2
    | _ => none

/-- One object member: whitespace, a string key, whitespace, a colon, then
a value parsed by `elem`. -/
def jsonMember (elem : List Char → Option (List Char)) (cs : List Char) :
    Option (List Char) :=
  match skipJsonWs cs with
  | '"' :: rest =>
    match jsonStringRest rest with
    | none => none
    | some rest1 =>
      match skipJsonWs rest1 with
      | ':' :: rest2 => elem rest2
      | _ => none
  | _ => none

/-- After one object member: whitespace, then a comma and another member,
or the closing brace. -/
def jsonObjTail (elem : List Char → Option (List Char)) :
    Nat → List Char → Option (List Char)
  | 0, _ => none
  | f + 1, cs =>
    match skipJsonWs cs with
    | '}' :: rest => some rest
    | ',' :: rest =>
      match jsonMember elem rest with
      | none => none
      | some rest2 => jsonObjTail elem f rest2
    | _ => none

/-- Accepts one JSON value at the head after skipping leading whitespace:
objects, arrays, strings, numbers, the keywords true, false and null, and
the constants NaN, Infinity and -Infinity that the Python decoder
additionally accepts.  The depth argument bounds container nesting; every
nesting level consumes at least one character, so any depth larger than
the text length suffices. -/
def jsonValueRest : Nat → List Char → Option (List Char)
  | 0, _ => none
  | d + 1, cs0 =>
    match skipJsonWs cs0 with
    | [] => none
    | c :: rest =>
      if c == '"' then jsonStringRest rest
      else if c == '[' then
        match skipJsonWs rest with
        | ']' :: rest2 => some rest2
        | _ =>
          match jsonValueRest d rest with
          | none => none
          | some rest2 => jsonArrTail (jsonValueRest d) (rest2.length + 1) rest2
      else if c == '{' then
        match skipJsonWs rest with
        | '}' :: rest2 => some rest2
        | _ =>
          match jsonMember (jsonValueRest d) rest with
          | none => none
          | some rest2 => jsonObjTail (jsonValueRest d) (rest2.length + 1) rest2
      else if c == 't' then stripKeyword ("rue".data) rest
      else if c == 'f' then stripKeyword ("alse".data) rest
      else if c == 'n' then stripKeyword ("ull".data) rest
      else if c == 'N' then stripKeyword ("aN".data) rest
      else if c == 'I' then stripKeyword ("nfinity".data) rest
      else if c == '-' then
        match stripKeyword ("Infinity".data) rest with
        | some rest2 => some rest2
        | none => jsonNumberRest (c :: rest)
      else jsonNumberRest (c :: rest)

/-- Python `json.loads` viewed as an acceptor: the parse succeeds exactly
when the whole text is one JSON value with optional surrounding whitespace
(anything after the value is the Extra-data error).  The parsed object
itself is not modelled: no code in the program ever reads it. -/
def jsonAccepts (s : String) : Bool :=
  match jsonValueRest (s.data.length + 1) s.data with
  | some rest => (skipJsonWs rest).isEmpty
  | none => false

/-- The `CognosReport` dataclass as `search_reports` reconstructs it with
`CognosReport(*row[:-1], json.loads(row[-1]))`: the first five columns fill
`store_id` through `parameters` positionally, so `parameters` receives the
raw serialized text of its column, undecoded, although the dataclass
annotation promises a list; `json.loads` is applied to the last-modified
column.  The parsed object is never read by the program, so the field
retains the column text here. -/
structure CognosReport where
  store_id : String
  name : String
  path : String
  description : String
  parameters : String
  last_modified : String
deriving DecidableEq

/-- Reconstruction of one selected row: raises a JSONDecodeError — returns
`none` — unless the last-modified text is valid JSON; on success the fields
are the column texts, with `parameters` still serialized. -/
def reconstructRow (row : ReportRow) : Option CognosReport :=
  if jsonAccepts row.last_modified then
    some { store_id := row.store_id, name := row.name, path := row.path,
           description := row.description, parameters := row.parameters,
           last_modified := row.last_modified }
  else none

/-- The list comprehension of `search_reports`: reconstruct every selected
row in order; the first failing `json.loads` raises out of the whole call. -/
def reconstructAll : List ReportRow → Option (List CognosReport)
  | [] => some []
  | row :: rest =>
    match reconstructRow row with
    | none => none
    | some d =>
      match reconstructAll rest with
      | none => none
      | some ds => some (d :: ds)

/-- `AIReporter.search_reports`: the SELECT filters the table with the three
`LIKE` tests, then the comprehension reconstructs the selected rows. -/
def search_reports (cache : List ReportRow) (query : String) :
    Option (List CognosReport) :=
  reconstructAll (sqlSelect cache query)

/-- `AIReportAgent._score_report`: the number of whitespace-separated tokens
of the lower-cased request that occur as substrings of the lower-cased
concatenation of the report's name and description. -/
def _score_report (report : CognosReport) (request : String) : Nat :=
  (splitWs (lowerList request.data)).countP
    (fun word => seqContains word (lowerList (report.name ++ report.description).data))

/-- Python `max(xs, key=f)`: scans left to right keeping the current best and
replacing it only on a strictly greater key, so the first element attaining
the maximum is returned. -/
def pyMax (key : CognosReport → Nat) (best : CognosReport) : List CognosReport → CognosReport
  | [] => best
  | r :: rs => if key r > key best then pyMax key r rs else pyMax key best rs

/-- `AIReportAgent._extract_params`: the closed trigger table, evaluated on
the lower-cased request; insertion order of the Python dict is date then
quarter. -/
def _extract_params (request : String) : List (String × String) :=
  (if seqContains "dec".data (lowerList request.data)
      || seqContains "2024".data (lowerList request.data)
    then [("p_Date", "2024-12")] else []) ++
  (if seqContains "q4".data (lowerList request.data)
    then [("p_Quarter", "Q4")] else [])

/-- Outcome of `AIReportAgent.process_request`, up to the report-generation
I/O boundary: the no-reports message, an escaped JSONDecodeError raised by
the row reconstruction inside `search_reports`, or generation invoked on
the selected report with the extracted parameters. -/
inductive AgentOutcome where
  | noReportsFound : AgentOutcome
  | raisedJsonError : AgentOutcome
  | generated : CognosReport → List (String × String) → AgentOutcome
deriving DecidableEq

/-- `AIReportAgent.process_request`: search with the full request text; a
raised JSONDecodeError propagates; an empty result returns the no-reports
message; otherwise select the maximum-scoring candidate and generate with
the extracted parameters. -/
def process_request (cache : List ReportRow) (request : String) : AgentOutcome :=
  match search_reports cache request with
  | none => AgentOutcome.raisedJsonError
  | some [] => AgentOutcome.noReportsFound
  | some (r :: rs) =>
    AgentOutcome.generated (pyMax (fun x => _score_report x request) r rs)
      (_extract_params request)

/-- Case-insensitive literal substring test, the specification's reading of
`find`: does the lower-cased needle occur contiguously in the lower-cased
haystack? -/
def containsCI (needle hay : String) : Bool :=
  seqContains (lowerList needle.data) (lowerList hay.data)

/-- The specification's `find(substring)` contract at the row level: the
ordered rows whose name, description or path contains the substring
case-insensitively. -/
def findSpecRows (cache : List ReportRow) (query : String) : List ReportRow :=
  cache.filter (fun r =>
    containsCI query r.name || containsCI query r.description || containsCI query r.path)

/-- On metacharacter-free queries the unescaped `LIKE` test coincides with
case-insensitive substring containment. -/
theorem sqlLike_eq_containsCI (q field : String) (hq : noMeta q.data = true) :
    sqlLike q field = containsCI q field := by
  rw [Bool.eq_iff_iff]
  unfold sqlLike containsCI
  rw [likeMatch_wrapped_iff q.data hq, seqContains_iff]

/-- On metacharacter-free queries the SELECT of `search_reports` is exactly
the specification's case-insensitive substring filter. -/
theorem sqlSelect_eq_findSpecRows (cache : List ReportRow) (q : String)
    (hq : noMeta q.data = true) : sqlSelect cache q = findSpecRows cache q := by
  unfold sqlSelect findSpecRows
  exact List.filter_congr fun r _ => by
    rw [sqlLike_eq_containsCI q r.name hq, sqlLike_eq_containsCI q r.description hq,
      sqlLike_eq_containsCI q r.path hq]

theorem likeMatch_two_percents (t : List Char) : likeMatch ['%', '%'] t = true :=
  (likeMatch_percent_cons ['%'] t).mpr ⟨[], t, rfl, likeMatch_percent_all t⟩

theorem likeMatch_three_percents (t : List Char) : likeMatch ['%', '%', '%'] t = true :=
  (likeMatch_percent_cons ['%', '%'] t).mpr ⟨[], t, rfl, likeMatch_two_percents t⟩

/-- The empty query wraps to the pattern of two percents, which matches every
row, so the SELECT keeps the whole table. -/
theorem sqlSelect_empty_query (cache : List ReportRow) :
    sqlSelect cache "" = cache := by
  unfold sqlSelect
  apply List.filter_eq_self.mpr
  intro r _
  simp [show sqlLike "" r.name = true from likeMatch_two_percents r.name.data]

/-- The query percent wraps to the pattern of three percents, which matches
every row, so the SELECT keeps the whole table. -/
theorem sqlSelect_percent_query (cache : List ReportRow) :
    sqlSelect cache "%" = cache := by
  unfold sqlSelect
  apply List.filter_eq_self.mpr
  intro r _
  simp [show sqlLike "%" r.name = true from likeMatch_three_percents r.name.data]

/-- The element Python `max` returns is an element of the scanned list. -/
theorem pyMax_mem (key : CognosReport → Nat) (best : CognosReport)
    (l : List CognosReport) : pyMax key best l ∈ best :: l := by
  induction l generalizing best with
  | nil => simp [pyMax]
  | cons r rs ih =>
    unfold pyMax
    by_cases h : key r > key best
    · rw [if_pos h]
      exact List.mem_cons_of_mem best (ih r)
    · rw [if_neg h]
      rcases List.mem_cons.mp (ih best) with h1 | h1
      · rw [h1]; exact List.mem_cons_self best (r :: rs)
      · exact List.mem_cons_of_mem best (List.mem_cons_of_mem r h1)

/-- The element Python `max` returns has a maximal key. -/
theorem pyMax_le (key : CognosReport → Nat) (best : CognosReport)
    (l : List CognosReport) : ∀ x ∈ best :: l, key x ≤ key (pyMax key best l) := by
  induction l generalizing best with
  | nil =>
    intro x hx
    rcases List.mem_cons.mp hx with rfl | h
    · simp [pyMax]
    · simp at h
  | cons r rs ih =>
    intro x hx
    unfold pyMax
    by_cases h : key r > key best
    · rw [if_pos h]
      rcases List.mem_cons.mp hx with rfl | hx'
      · exact le_trans (le_of_lt h) (ih r r (List.mem_cons_self r rs))
      · exact ih r x hx'
    · rw [if_neg h]
      rcases List.mem_cons.mp hx with rfl | hx'
      · exact ih x x (List.mem_cons_self x rs)
      · rcases List.mem_cons.mp hx' with rfl | hx''
        · exact le_trans (Nat.le_of_not_lt h) (ih best best (List.mem_cons_self best rs))
        · exact ih best x (List.mem_cons_of_mem best hx'')

/-- Every report of a successful reconstruction run arises from some
selected row. -/
theorem reconstructAll_mem : ∀ (l : List ReportRow) (out : List CognosReport),
    reconstructAll l = some out → ∀ d ∈ out, ∃ row ∈ l, reconstructRow row = some d := by
  intro l
  induction l with
  | nil =>
    intro out h d hd
    injection h with h
    subst h
    simp at hd
  | cons row rest ih =>
    intro out h d hd
    cases hr : reconstructRow row with
    | none => simp [reconstructAll, hr] at h
    | some d0 =>
      cases hrest : reconstructAll rest with
      | none => simp [reconstructAll, hr, hrest] at h
      | some ds =>
        simp only [reconstructAll, hr, hrest, Option.some.injEq] at h
        subst h
        rcases List.mem_cons.mp hd with rfl | hd'
        · exact ⟨row, List.mem_cons_self row rest, hr⟩
        · obtain ⟨x, hx, hfx⟩ := ih ds hrest d hd'
          exact ⟨x, List.mem_cons_of_mem row hx, hfx⟩
/-- Primary-key lookup in the modelled table. -/
def findRow (rows : List ReportRow) (id : String) : Option ReportRow :=
  rows.find? (fun r => r.store_id == id)

/-- The last upstream item carrying a given identifier, if any. -/
def lastItemWith (id : String) : List CatalogItem → Option CatalogItem
  | [] => none
  | i :: rest =>
    match lastItemWith id rest with
    | some x => some x
    | none => if i.id == id then some i else none

/-- Filtering by a predicate that holds wherever the searched-for predicate
holds does not change the result of `find?`. -/
theorem find?_filter_of_imp {α : Type} (p q : α → Bool) (h : ∀ x, p x = true → q x = true) :
    ∀ l : List α, (l.filter q).find? p = l.find? p := by
  intro l
  induction l with
  | nil => rfl
  | cons x l ih =>
    cases hq : q x with
    | true =>
      rw [List.filter_cons_of_pos hq]
      cases hp : p x with
      | true => rw [List.find?_cons_of_pos _ hp, List.find?_cons_of_pos _ hp]
      | false =>
        rw [List.find?_cons_of_neg _ (by simp [hp]), List.find?_cons_of_neg _ (by simp [hp]),
          ih]
    | false =>
      have hp : p x = false := by
        cases hpx : p x with
        | false => rfl
        | true => rw [h x hpx] at hq; exact hq.symm ▸ rfl
      rw [List.filter_cons_of_neg (by simp [hq]), ih,
        List.find?_cons_of_neg _ (by simp [hp])]

/-- Effect of one `INSERT OR REPLACE` on primary-key lookup. -/
theorem findRow_insertOrReplace (rows : List ReportRow) (r : ReportRow) (id : String) :
    findRow (insertOrReplace rows r) id =
      if r.store_id == id then some r else findRow rows id := by
  unfold findRow insertOrReplace
  rw [List.find?_append]
  cases hid : r.store_id == id with
  | true =>
    have hnone : (rows.filter (fun x => x.store_id != r.store_id)).find?
        (fun x => x.store_id == id) = none := by
      apply List.find?_eq_none.mpr
      intro x hx hpx
      have hq := (List.mem_filter.mp hx).2
      rw [beq_iff_eq.mp hid] at hq
      exact (by simpa using hq : x.store_id ≠ id) (beq_iff_eq.mp hpx)
    rw [hnone, if_pos rfl]
    simp [List.find?, hid]
  | false =>
    rw [if_neg (by simp [hid])]
    have hfilter := find?_filter_of_imp (fun x => x.store_id == id)
      (fun x => x.store_id != r.store_id) ?_ rows
    · rw [hfilter]
      have hlast : List.find? (fun x => x.store_id == id) [r] = none := by
        simp [List.find?, hid]
      rw [hlast, Option.or_none]
    · intro x hpx
      have hx : x.store_id = id := beq_iff_eq.mp hpx
      have hr : ¬ r.store_id = id := by simpa using hid
      simp [hx]
      intro hcontra
      exact hr (hcontra ▸ rfl)

/-- Lookup after a bulk refresh: an identifier maps to the row of the last
upstream item carrying it, and to its prior row when no upstream item does. -/
theorem findRow_build (results : List CatalogItem) :
    ∀ (prior : List ReportRow) (id : String),
    findRow (_build_reports_cache prior results) id =
      match lastItemWith id results with
      | some item => some (rowOfItem item)
      | none => findRow prior id := by
  induction results with
  | nil => intro prior id; rfl
  | cons item rest ih =>
    intro prior id
    show findRow (_build_reports_cache (insertOrReplace prior (rowOfItem item)) rest) id = _
    rw [ih (insertOrReplace prior (rowOfItem item)) id]
    cases hrest : lastItemWith id rest with
    | some x => simp [lastItemWith, hrest]
    | none =>
      rw [findRow_insertOrReplace]
      have : (rowOfItem item).store_id = item.id := rfl
      rw [this]
      cases hid : item.id == id with
      | true => simp [lastItemWith, hrest, hid]
      | false => simp [lastItemWith, hrest, hid]

/-- A found last item carries the identifier it was searched for. -/
theorem lastItemWith_id (id : String) :
    ∀ (results : List CatalogItem) (x : CatalogItem),
      lastItemWith id results = some x → x.id = id := by
  intro results
  induction results with
  | nil => intro x h; simp [lastItemWith] at h
  | cons i rest ih =>
    intro x h
    rw [lastItemWith] at h
    cases hrest : lastItemWith id rest with
    | some y =>
      rw [hrest] at h
      injection h with h
      exact h ▸ ih y hrest
    | none =>
      rw [hrest] at h
      cases hid : i.id == id with
      | true =>
        rw [if_pos (by simp [hid])] at h
        injection h with h
        exact h ▸ beq_iff_eq.mp hid
      | false =>
        rw [if_neg (by simp [hid])] at h
        exact absurd h (by simp)

/-- Any identifier present among the upstream items has a last carrier. -/
theorem lastItemWith_isSome_of_mem (id : String) :
    ∀ (results : List CatalogItem), (∃ item ∈ results, item.id = id) →
      ∃ x, lastItemWith id results = some x := by
  intro results
  induction results with
  | nil => rintro ⟨item, hmem, _⟩; simp at hmem
  | cons i rest ih =>
    rintro ⟨item, hmem, hid⟩
    rw [lastItemWith]
    cases hrest : lastItemWith id rest with
    | some y => exact ⟨y, rfl⟩
    | none =>
      rcases List.mem_cons.mp hmem with rfl | hmem'
      · rw [if_pos (by simp [hid])]
        exact ⟨item, rfl⟩
      · obtain ⟨x, hx⟩ := ih ⟨item, hmem', hid⟩
        rw [hx] at hrest
        exact absurd hrest (by simp)

/-- One `INSERT OR REPLACE` preserves uniqueness of the primary key column. -/
theorem nodup_insertOrReplace (rows : List ReportRow) (r : ReportRow)
    (h : (rows.map (fun x => x.store_id)).Nodup) :
    ((insertOrReplace rows r).map (fun x => x.store_id)).Nodup := by
  unfold insertOrReplace
  rw [List.map_append]
  apply List.Nodup.append
  · exact List.Nodup.sublist (List.Sublist.map _ (List.filter_sublist rows)) h
  · simp
  · intro a ha hb
    simp only [List.map_cons, List.map_nil, List.mem_singleton] at hb
    obtain ⟨x, hx, rfl⟩ := List.mem_map.mp ha
    have hq := (List.mem_filter.mp hx).2
    exact (by simpa using hq : x.store_id ≠ r.store_id) hb

/-- The bulk refresh preserves uniqueness of the primary key column. -/
theorem nodup_build (results : List CatalogItem) :
    ∀ prior : List ReportRow, (prior.map (fun r => r.store_id)).Nodup →
      ((_build_reports_cache prior results).map (fun r => r.store_id)).Nodup := by
  induction results with
  | nil => intro prior h; exact h
  | cons item rest ih =>
    intro prior h
    exact ih (insertOrReplace prior (rowOfItem item)) (nodup_insertOrReplace prior _ h)

/-- Every row of an upserted table is an original row or the inserted row. -/
theorem mem_insertOrReplace (rows : List ReportRow) (r x : ReportRow)
    (hx : x ∈ insertOrReplace rows r) : x ∈ rows ∨ x = r := by
  rcases List.mem_append.mp hx with h | h
  · exact Or.inl (List.mem_filter.mp h).1
  · exact Or.inr (List.mem_singleton.mp h)

/-- Every row of the refreshed cache is a surviving prior row or the row of
some upstream item. -/
theorem mem_build_cases (results : List CatalogItem) :
    ∀ (prior : List ReportRow) (x : ReportRow),
      x ∈ _build_reports_cache prior results →
      x ∈ prior ∨ ∃ item ∈ results, x = rowOfItem item := by
  induction results with
  | nil => intro prior x hx; exact Or.inl hx
  | cons item rest ih =>
    intro prior x hx
    rcases ih (insertOrReplace prior (rowOfItem item)) x hx with h | ⟨i, hi, rfl⟩
    · rcases mem_insertOrReplace prior (rowOfItem item) x h with h' | h'
      · exact Or.inl h'
      · exact Or.inr ⟨item, List.mem_cons_self item rest, h'⟩
    · exact Or.inr ⟨i, List.mem_cons_of_mem item hi, rfl⟩

/-- A prior row whose identifier no upstream item carries survives the
refresh verbatim. -/
theorem mem_build_of_stale (results : List CatalogItem) :
    ∀ (prior : List ReportRow) (r : ReportRow), r ∈ prior →
      lastItemWith r.store_id results = none →
      r ∈ _build_reports_cache prior results := by
  induction results with
  | nil => intro prior r hr _; exact hr
  | cons item rest ih =>
    intro prior r hr hnone
    rw [lastItemWith] at hnone
    cases hrest : lastItemWith r.store_id rest with
    | some y => rw [hrest] at hnone; exact absurd hnone (by simp)
    | none =>
      rw [hrest] at hnone
      have hid : (item.id == r.store_id) = false := by
        cases hid : item.id == r.store_id with
        | false => rfl
        | true => rw [if_pos (by simp [hid])] at hnone; exact absurd hnone (by simp)
      apply ih (insertOrReplace prior (rowOfItem item)) r _ hrest
      apply List.mem_append.mpr
      apply Or.inl
      apply List.mem_filter.mpr
      refine ⟨hr, ?_⟩
      have : (rowOfItem item).store_id = item.id := rfl
      simp only [this, bne_iff_ne]
      intro hcontra
      rw [hcontra] at hid
      simp at hid

/-- A wall-clock date-time as read by `datetime.now()`, at the second
precision `strftime` formats. -/
structure DateTime where
  year : Nat
  month : Nat
  day : Nat
  hour : Nat
  minute : Nat
  second : Nat
deriving DecidableEq

/-- The decimal digit character for `n` modulo ten. -/
def digitChar (n : Nat) : Char := Char.ofNat (48 + n % 10)

/-- Two-digit zero-padded decimal rendering, as `strftime` prints the month,
day, hour, minute and second fields (exact for values below 100). -/
def pad2 (n : Nat) : List Char := [digitChar (n / 10), digitChar n]

/-- Four-digit zero-padded decimal rendering, as `strftime` prints the year
(exact for values below 10000). -/
def pad4 (n : Nat) : List Char :=
  [digitChar (n / 1000), digitChar (n / 100), digitChar (n / 10), digitChar n]

/-- The characters of `strftime('%Y%m%d_%H%M%S')` for in-range fields. -/
def timestampChars (t : DateTime) : List Char :=
  pad4 t.year ++ pad2 t.month ++ pad2 t.day ++ ['_'] ++
    pad2 t.hour ++ pad2 t.minute ++ pad2 t.second

/-- The filename `generate_report` builds:
`report_` then the first eight characters of the identifier, an underscore,
the timestamp, a dot and the format. -/
def generate_report_filename (store_id fmt : String) (now : DateTime) : String :=
  ⟨"report_".data ++ store_id.data.take 8 ++ "_".data ++ timestampChars now
    ++ ".".data ++ fmt.data⟩

/-- The path `generate_report` writes: the file goes under the temporary
directory. -/
def generate_report_filepath (store_id fmt : String) (now : DateTime) : String :=
  "/tmp/" ++ generate_report_filename store_id fmt now

/-- The pattern the specification states for the scenario filename:
`report_abcdef12_`, then fourteen contiguous digits, then `.pdf`. -/
def matchesClaimedPattern (s : String) : Bool :=
  (s.data.take 16 == "report_abcdef12_".data)
  && ((s.data.drop 16).take 14).all Char.isDigit
  && (((s.data.drop 16).take 14).length == 14)
  && ((s.data.drop 16).drop 14 == ".pdf".data)

/-- The shape the program produces for the scenario inputs:
`report_abcdef12_`, eight digits, an underscore, six digits, `.pdf`. -/
def matchesActualPattern (s : String) : Bool :=
  (s.data.take 16 == "report_abcdef12_".data)
  && ((s.data.drop 16).take 8).all Char.isDigit
  && (((s.data.drop 16).take 8).length == 8)
  && ((s.data.drop 24).take 1 == ['_'])
  && ((s.data.drop 25).take 6).all Char.isDigit
  && (((s.data.drop 25).take 6).length == 6)
  && (s.data.drop 31 == ".pdf".data)

theorem digitChar_isDigit (n : Nat) : (digitChar n).isDigit = true := by
  unfold digitChar
  have h : n % 10 < 10 := Nat.mod_lt n (by norm_num)
  set k := n % 10 with hk
  clear_value k
  interval_cases k <;> decide

theorem pad2_all_digits (n : Nat) : (pad2 n).all Char.isDigit = true := by
  simp [pad2, digitChar_isDigit]

theorem pad4_all_digits (n : Nat) : (pad4 n).all Char.isDigit = true := by
  simp [pad4, digitChar_isDigit]

/-- Any string of the shape prefix, eight digits, underscore, six digits,
`.pdf` passes the actual pattern and fails the claimed fourteen-digit one. -/
theorem patterns_of_shape (d8 d6 : List Char)
    (h8 : d8.length = 8) (h6 : d6.length = 6)
    (hd8 : d8.all Char.isDigit = true) (hd6 : d6.all Char.isDigit = true) :
    matchesActualPattern ⟨"report_abcdef12_".data ++ (d8 ++ ('_' :: (d6 ++ ".pdf".data)))⟩ = true
    ∧ matchesClaimedPattern ⟨"report_abcdef12_".data ++ (d8 ++ ('_' :: (d6 ++ ".pdf".data)))⟩ = false := by
  have hpre : ("report_abcdef12_".data).length = 16 := by decide
  have h1 : ∀ X : List Char, ("report_abcdef12_".data ++ X).take 16 = "report_abcdef12_".data :=
    fun X => List.take_left' hpre
  have h2 : ∀ X : List Char, ("report_abcdef12_".data ++ X).drop 16 = X :=
    fun X => List.drop_left' hpre
  set l := "report_abcdef12_".data ++ (d8 ++ ('_' :: (d6 ++ ".pdf".data))) with hl
  have hdrop16 : l.drop 16 = d8 ++ ('_' :: (d6 ++ ".pdf".data)) := h2 _
  have htake8 : (l.drop 16).take 8 = d8 := by rw [hdrop16]; exact List.take_left' h8
  have hdrop24 : l.drop 24 = '_' :: (d6 ++ ".pdf".data) := by
    have e : (l.drop 16).drop 8 = l.drop 24 := by rw [List.drop_drop]
    rw [← e, hdrop16]
    exact List.drop_left' h8
  have htake1 : (l.drop 24).take 1 = ['_'] := by rw [hdrop24]; rfl
  have hdrop25 : l.drop 25 = d6 ++ ".pdf".data := by
    have e : (l.drop 24).drop 1 = l.drop 25 := by rw [List.drop_drop]
    rw [← e, hdrop24]; rfl
  have htake6 : (l.drop 25).take 6 = d6 := by rw [hdrop25]; exact List.take_left' h6
  have hdrop31 : l.drop 31 = ".pdf".data := by
    have e : (l.drop 25).drop 6 = l.drop 31 := by rw [List.drop_drop]
    rw [← e, hdrop25]
    exact List.drop_left' h6
  constructor
  · unfold matchesActualPattern
    rw [show (⟨l⟩ : String).data = l from rfl, h1, htake8, hdrop24, hdrop31, htake6]
    simp [hd8, hd6, h8, h6]
  · unfold matchesClaimedPattern
    rw [show (⟨l⟩ : String).data = l from rfl]
    have hB : ((l.drop 16).take 14).all Char.isDigit = false := by
      rw [hdrop16, show (14 : Nat) = d8.length + 6 by rw [h8], List.take_append]
      rw [List.all_append]
      simp [show Char.isDigit '_' = false from by decide]
    rw [hB]
    simp

/-- The filename for the scenario identifier and format, rewritten to the
prefix-digits-underscore-digits-suffix shape. -/
theorem generate_report_filename_scenario_shape (t : DateTime) :
    generate_report_filename "abcdef1234567890" "pdf" t =
      ⟨"report_abcdef12_".data ++ ((pad4 t.year ++ pad2 t.month ++ pad2 t.day) ++
        ('_' :: ((pad2 t.hour ++ pad2 t.minute ++ pad2 t.second) ++ ".pdf".data)))⟩ := by
  apply String.ext
  show "report_".data ++ List.take 8 "abcdef1234567890".data ++ "_".data ++ timestampChars t
      ++ ".".data ++ "pdf".data =
    "report_abcdef12_".data ++ ((pad4 t.year ++ pad2 t.month ++ pad2 t.day) ++
      ('_' :: ((pad2 t.hour ++ pad2 t.minute ++ pad2 t.second) ++ ".pdf".data)))
  rw [show List.take 8 "abcdef1234567890".data = "abcdef12".data from by decide]
  unfold timestampChars
  simp only [List.append_assoc, List.singleton_append, List.cons_append, List.nil_append]

/-- Scenario fixture: the Daily Sales row as the refresh stores it (the
scenario fixes id, name and description; the path is arbitrary, the
parameters column is always the serialized empty list, and the
last-modified column holds the upstream default, the empty string). -/
def r1 : ReportRow :=
  { store_id := "r1", name := "Daily Sales", path := "/reports/daily_sales",
    description := "sales by region", parameters := "[]", last_modified := "" }

/-- Scenario fixture: the Monthly Summary row. -/
def r2 : ReportRow :=
  { store_id := "r2", name := "Monthly Summary", path := "/reports/monthly_summary",
    description := "summary totals", parameters := "[]", last_modified := "" }

/-- Variant of the Daily Sales row whose stored last-modified text happens
to be valid JSON, so that the row reconstruction succeeds. -/
def r1p : ReportRow := { r1 with last_modified := "0" }

/-- Variant of the Monthly Summary row with JSON-valid last-modified text. -/
def r2p : ReportRow := { r2 with last_modified := "0" }

/-- The reconstruction of `r1p`: the parameters field carries the raw
serialized text of the column. -/
def r1c : CognosReport :=
  { store_id := "r1", name := "Daily Sales", path := "/reports/daily_sales",
    description := "sales by region", parameters := "[]", last_modified := "0" }

/-- The reconstruction of `r2p`. -/
def r2c : CognosReport :=
  { store_id := "r2", name := "Monthly Summary", path := "/reports/monthly_summary",
    description := "summary totals", parameters := "[]", last_modified := "0" }

/-- Fixture: a cached row whose fields contain no percent character. -/
def percentRow : ReportRow :=
  { store_id := "p1", name := "abc", path := "/abc", description := "plain",
    parameters := "[]", last_modified := "" }

/-- Fixture: a row present in the database file before a refresh, whose
identifier the upstream response does not carry. -/
def staleRow : ReportRow :=
  { store_id := "stale", name := "Old Report", path := "/old",
    description := "kept from an earlier run", parameters := "[]", last_modified := "" }

/-- Fixture: first of two upstream items sharing one identifier. -/
def itemA1 : CatalogItem :=
  { id := "a", name := "First", path := "/a1", description := "", lastModified := "" }

/-- Fixture: second of two upstream items sharing one identifier. -/
def itemA2 : CatalogItem :=
  { id := "a", name := "Second", path := "/a2", description := "", lastModified := "" }

/-- Fixture: an upstream item with a fresh identifier. -/
def itemB : CatalogItem :=
  { id := "b", name := "B Report", path := "/b", description := "", lastModified := "" }

/-- Fixture: an upstream item whose last-modified text is valid JSON, so a
search that selects its row returns instead of raising. -/
def itemJ : CatalogItem :=
  { id := "j", name := "J Report", path := "/j", description := "", lastModified := "0" }

/-- The search result for the row of `itemJ`. -/
def rcJ : CognosReport :=
  { store_id := "j", name := "J Report", path := "/j", description := "",
    parameters := "[]", last_modified := "0" }

/-- C1 counterexample: on the scenario cache the scenario request matches no
candidate at all — the full request text is the substring query and no
name, description or path contains "daily sales report" — so the agent
returns the no-reports-found message instead of selecting r1. -/
theorem c1_counterexample :
    process_request [r1, r2] "daily sales report" = AgentOutcome.noReportsFound := by
  decide

/-- C1 (amended): whenever the agent generates, it generates a
maximum-scoring candidate of the search result together with the extracted
parameters; the scoring does give the Daily Sales report two and the
Monthly Summary report zero for the request "daily sales report", and
selection over the two candidates picks the former.  But the scenario
request matches no row in the search step, and even the request "sales",
which does match the Daily Sales row, raises a JSONDecodeError while
reconstructing it from the stored row (its last-modified column, the empty
string, is not valid JSON); generation is reached only when every selected
row's last-modified text parses, as with the variant rows. -/
theorem c1_claim :
    (∀ (cache : List ReportRow) (request : String) (best : CognosReport)
        (params : List (String × String)),
      process_request cache request = AgentOutcome.generated best params →
        params = _extract_params request ∧
        ∀ out, search_reports cache request = some out →
          best ∈ out ∧ ∀ x ∈ out, _score_report x request ≤ _score_report best request)
    ∧ _score_report r1c "daily sales report" = 2
    ∧ _score_report r2c "daily sales report" = 0
    ∧ pyMax (fun x => _score_report x "daily sales report") r1c [r2c] = r1c
    ∧ process_request [r1, r2] "sales" = AgentOutcome.raisedJsonError
    ∧ process_request [r1p, r2p] "sales" = AgentOutcome.generated r1c [] := by
  refine ⟨?_, by decide, by decide, by decide, by decide, by decide⟩
  intro cache request best params h
  cases hs : search_reports cache request with
  | none =>
    exfalso
    unfold process_request at h
    rw [hs] at h
    exact absurd h (by simp)
  | some out0 =>
    cases out0 with
    | nil =>
      exfalso
      unfold process_request at h
      rw [hs] at h
      exact absurd h (by simp)
    | cons r rs =>
      have h' : AgentOutcome.generated (pyMax (fun x => _score_report x request) r rs)
          (_extract_params request) = AgentOutcome.generated best params := by
        rw [← h]
        unfold process_request
        rw [hs]
      injection h' with hbest hparams
      refine ⟨hparams.symm, ?_⟩
      intro out hout
      injection hout with hout
      subst hout
      exact ⟨hbest ▸ pyMax_mem (fun y => _score_report y request) r rs,
        fun x hx => hbest ▸ pyMax_le (fun y => _score_report y request) r rs x hx⟩

/-- C1 witness: the selection property applied to the JSON-parseable
variant of the scenario cache with the request "sales". -/
theorem c1_witness :
    ([] : List (String × String)) = _extract_params "sales" ∧ r1c ∈ [r1c] := by
  have h := c1_claim.1 [r1p, r2p] "sales" r1c [] (by decide)
  exact ⟨h.1, (h.2 [r1c] (by decide)).1⟩

/-- C2: parameter extraction is exactly the closed trigger table — the date
parameter appears precisely when the lower-cased request contains "dec" or
"2024", the quarter parameter precisely when it contains "q4", the result
is empty precisely when no trigger fires, and nothing else ever appears. -/
theorem c2_claim (request : String) :
    (("p_Date", "2024-12") ∈ _extract_params request ↔
      (seqContains "dec".data (lowerList request.data)
        || seqContains "2024".data (lowerList request.data)) = true)
    ∧ (("p_Quarter", "Q4") ∈ _extract_params request ↔
      seqContains "q4".data (lowerList request.data) = true)
    ∧ (_extract_params request = [] ↔
      (seqContains "dec".data (lowerList request.data) = false ∧
        seqContains "2024".data (lowerList request.data) = false ∧
        seqContains "q4".data (lowerList request.data) = false))
    ∧ (∀ kv ∈ _extract_params request,
        kv = ("p_Date", "2024-12") ∨ kv = ("p_Quarter", "Q4")) := by
  unfold _extract_params
  cases hd : seqContains "dec".data (lowerList request.data) <;>
    cases h24 : seqContains "2024".data (lowerList request.data) <;>
      cases hq : seqContains "q4".data (lowerList request.data) <;>
        simp [hd, h24, hq]

/-- C2 witness: the trigger table evaluated on three concrete requests. -/
theorem c2_witness :
    (("p_Quarter", "Q4") ∈ _extract_params "Q4 revenue")
    ∧ (("p_Date", "2024-12") ∈ _extract_params "Dec numbers")
    ∧ _extract_params "hello" = [] :=
  ⟨(c2_claim "Q4 revenue").2.1.mpr (by decide),
    (c2_claim "Dec numbers").1.mpr (by decide),
    (c2_claim "hello").2.2.1.mpr (by decide)⟩

/-- C3: when the SELECT yields no row the agent returns the
no-reports-found message, never a generation outcome (and, the
reconstruction of line 58 never running over an empty selection, no
JSONDecodeError either); in particular the empty cache yields that message
for every request. -/
theorem c3_claim (cache : List ReportRow) (request : String)
    (h : sqlSelect cache request = []) :
    process_request cache request = AgentOutcome.noReportsFound
    ∧ (∀ best params, process_request cache request ≠ AgentOutcome.generated best params)
    ∧ process_request [] request = AgentOutcome.noReportsFound := by
  have h1 : process_request cache request = AgentOutcome.noReportsFound := by
    unfold process_request search_reports
    rw [h]
    rfl
  refine ⟨h1, ?_, rfl⟩
  intro best params hcontra
  rw [h1] at hcontra
  exact absurd hcontra (by simp)

/-- C3 witness: the empty cache answers no-reports-found. -/
theorem c3_witness :
    process_request [] "quarterly sales" = AgentOutcome.noReportsFound :=
  (c3_claim [] "quarterly sales" (by decide)).1

/-- C4: starting from a table with unique identifiers, the refreshed cache
has unique identifiers, every upstream item's identifier is present exactly
once, and the entry of an identifier is the row of the last upstream item
carrying it (later items overwrite earlier ones). -/
theorem c4_claim (prior : List ReportRow) (results : List CatalogItem)
    (h : (prior.map (fun r => r.store_id)).Nodup) :
    ((_build_reports_cache prior results).map (fun r => r.store_id)).Nodup
    ∧ (∀ item ∈ results, ∃ r, findRow (_build_reports_cache prior results) item.id = some r
        ∧ r.store_id = item.id)
    ∧ (∀ id item, lastItemWith id results = some item →
        findRow (_build_reports_cache prior results) id = some (rowOfItem item)) := by
  have hlookup := findRow_build results prior
  refine ⟨nodup_build results prior h, ?_, ?_⟩
  · intro item hitem
    obtain ⟨x, hx⟩ := lastItemWith_isSome_of_mem item.id results ⟨item, hitem, rfl⟩
    refine ⟨rowOfItem x, ?_, ?_⟩
    · rw [hlookup item.id, hx]
    · show x.id = item.id
      exact lastItemWith_id item.id results x hx
  · intro id item hlast
    rw [hlookup id, hlast]

/-- C4 witness: two upstream items share the identifier a; the refreshed
cache maps a to the later item's row. -/
theorem c4_witness :
    findRow (_build_reports_cache [] [itemA1, itemA2]) "a" = some (rowOfItem itemA2) :=
  (c4_claim [] [itemA1, itemA2] (by decide)).2.2 "a" itemA2 (by decide)

/-- C5 counterexample: refreshing a table that already holds a stale row
against an empty upstream response keeps the stale row — the refresh does
not clear the cache, so it is not a wholesale replacement. -/
theorem c5_counterexample :
    staleRow ∈ _build_reports_cache [staleRow] []
    ∧ _build_reports_cache [staleRow] [] ≠ [] := by
  exact ⟨by decide, by decide⟩

/-- C5 (amended): the refresh repopulates the cache from the upstream
response by insert-or-replace without clearing it first: every row of the
refreshed cache is a surviving prior row or the row of an upstream item,
every prior row whose identifier the response does not carry survives, and
every upstream item is represented under its identifier. -/
theorem c5_claim (prior : List ReportRow) (results : List CatalogItem) :
    (∀ r ∈ _build_reports_cache prior results,
      r ∈ prior ∨ ∃ item ∈ results, r = rowOfItem item)
    ∧ (∀ r ∈ prior, lastItemWith r.store_id results = none →
        r ∈ _build_reports_cache prior results)
    ∧ (∀ item ∈ results, ∃ x, lastItemWith item.id results = some x ∧
        findRow (_build_reports_cache prior results) item.id = some (rowOfItem x)) := by
  refine ⟨fun r hr => mem_build_cases results prior r hr,
    fun r hr hnone => mem_build_of_stale results prior r hr hnone, ?_⟩
  intro item hitem
  obtain ⟨x, hx⟩ := lastItemWith_isSome_of_mem item.id results ⟨item, hitem, rfl⟩
  refine ⟨x, hx, ?_⟩
  rw [findRow_build results prior item.id, hx]

/-- C5 witness: a stale row survives a refresh that brings one fresh item. -/
theorem c5_witness : staleRow ∈ _build_reports_cache [staleRow] [itemB] :=
  (c5_claim [staleRow] [itemB]).2.1 staleRow (by decide) (by decide)

/-- C6 counterexample: the search does not return exactly the
case-insensitively matching cached descriptors.  First, for the query
percent the SELECT is not the literal containment filter — percent matches
a row containing no percent character.  Second, even a literal query that
matches a row does not return it: the request "sales" selects the Daily
Sales row and then raises a JSONDecodeError reconstructing it (its stored
last-modified text, the empty string, is not valid JSON). -/
theorem c6_counterexample :
    sqlSelect [percentRow] "%" ≠ findSpecRows [percentRow] "%"
    ∧ search_reports [r1] "sales" = none := by
  exact ⟨by decide, by decide⟩

/-- C6 (amended): for every query free of the `LIKE` metacharacters percent
and underscore, the SELECT keeps exactly the ordered rows whose name,
description or path contains the query case-insensitively, and the empty
query keeps every row; the search then reconstructs the selected rows in
order — returning their reconstructions when every selected row's
last-modified text is valid JSON and raising a JSONDecodeError otherwise —
rather than returning the stored rows themselves. -/
theorem c6_claim (cache : List ReportRow) (query : String)
    (hq : noMeta query.data = true) :
    sqlSelect cache query = findSpecRows cache query
    ∧ sqlSelect cache "" = cache
    ∧ search_reports cache query = reconstructAll (findSpecRows cache query)
    ∧ search_reports cache "" = reconstructAll cache := by
  refine ⟨sqlSelect_eq_findSpecRows cache query hq, sqlSelect_empty_query cache, ?_, ?_⟩
  · unfold search_reports
    rw [sqlSelect_eq_findSpecRows cache query hq]
  · unfold search_reports
    rw [sqlSelect_empty_query cache]

/-- C6 witness: the equivalence applied to the scenario cache and the
query "sales". -/
theorem c6_witness :
    sqlSelect [r1, r2] "sales" = findSpecRows [r1, r2] "sales"
    ∧ sqlSelect [r1, r2] "" = [r1, r2] := by
  have h := c6_claim [r1, r2] "sales" (by decide)
  exact ⟨h.1, h.2.1⟩

/-- C7 counterexample: at a concrete time the generated filename does not
match `report_abcdef12_` followed by fourteen contiguous digits and
`.pdf` — the timestamp carries an interior underscore. -/
theorem c7_counterexample :
    matchesClaimedPattern (generate_report_filename "abcdef1234567890" "pdf"
      { year := 2024, month := 12, day := 1, hour := 15, minute := 30, second := 45 })
      = false := by decide

/-- C7 (amended): for identifier abcdef1234567890 and format pdf the
generated filename is `report_abcdef12_`, an eight-digit date, an
underscore, a six-digit time, then `.pdf` (fourteen digits split by an
underscore, not contiguous), and the file path places it under `/tmp`. -/
theorem c7_claim (t : DateTime) (hy : t.year ≤ 9999) (hmo : t.month ≤ 99)
    (hda : t.day ≤ 99) (hho : t.hour ≤ 99) (hmi : t.minute ≤ 99) (hse : t.second ≤ 99) :
    matchesActualPattern (generate_report_filename "abcdef1234567890" "pdf" t) = true
    ∧ matchesClaimedPattern (generate_report_filename "abcdef1234567890" "pdf" t) = false
    ∧ generate_report_filepath "abcdef1234567890" "pdf" t
        = "/tmp/" ++ generate_report_filename "abcdef1234567890" "pdf" t := by
  obtain ⟨hA, hC⟩ := patterns_of_shape (pad4 t.year ++ pad2 t.month ++ pad2 t.day)
    (pad2 t.hour ++ pad2 t.minute ++ pad2 t.second)
    (by simp [pad4, pad2]) (by simp [pad2])
    (by simp [List.all_append, pad4_all_digits, pad2_all_digits])
    (by simp [List.all_append, pad2_all_digits])
  refine ⟨?_, ?_, rfl⟩
  · rw [generate_report_filename_scenario_shape t]
    exact hA
  · rw [generate_report_filename_scenario_shape t]
    exact hC

/-- C7 witness: the amended pattern holds at a concrete time. -/
theorem c7_witness :
    matchesActualPattern (generate_report_filename "abcdef1234567890" "pdf"
      { year := 2024, month := 12, day := 1, hour := 15, minute := 30, second := 45 })
      = true :=
  (c7_claim { year := 2024, month := 12, day := 1, hour := 15, minute := 30, second := 45 }
    (by decide) (by decide) (by decide) (by decide) (by decide) (by decide)).1

/-- C8: the matching step is a pure function of the cache contents and the
request text — the code only SELECTs, scores and takes the first maximum
before the generation call — so two evaluations against an unchanged cache
agree (a raising evaluation raises identically). -/
theorem c8_claim (cache : List ReportRow) (request : String)
    (o₁ o₂ : AgentOutcome) (h₁ : process_request cache request = o₁)
    (h₂ : process_request cache request = o₂) : o₁ = o₂ := h₁ ▸ h₂

/-- C8 witness: two evaluations at the parseable scenario cache give the
same result. -/
theorem c8_witness :
    AgentOutcome.generated r1c [] = AgentOutcome.generated r1c [] :=
  c8_claim [r1p, r2p] "sales" (AgentOutcome.generated r1c [])
    (AgentOutcome.generated r1c []) (by decide) (by decide)

/-- C9 counterexample: the query percent does not return all cached
entries — on a cache whose row has the default empty last-modified text the
search raises a JSONDecodeError during reconstruction and returns nothing. -/
theorem c9_counterexample : search_reports [percentRow] "%" = none := by decide

/-- C9 (amended): the query is spliced into the `LIKE` pattern unescaped,
so the query percent matches every row of every cache at the SELECT —
including rows containing no literal percent character, which the literal
containment filter would reject; the search then reconstructs the whole
cache, returning all reconstructions when every last-modified text parses
as JSON and raising a JSONDecodeError otherwise. -/
theorem c9_claim (cache : List ReportRow) :
    sqlSelect cache "%" = cache
    ∧ search_reports cache "%" = reconstructAll cache
    ∧ findSpecRows [percentRow] "%" = [] := by
  refine ⟨sqlSelect_percent_query cache, ?_, by decide⟩
  unfold search_reports
  rw [sqlSelect_percent_query cache]

/-- C10 counterexample: a successful search returns a descriptor whose
parameters field is the raw two-character serialization of the empty list,
not a decoded empty list — the reconstruction never decodes that column. -/
theorem c10_counterexample :
    search_reports (_build_reports_cache [] [itemJ]) "" = some [rcJ]
    ∧ rcJ.parameters = "[]" := by
  exact ⟨by decide, by decide⟩

/-- C10 (amended): the refresh always serializes the empty list into the
parameters column; but the row reconstruction never decodes that column —
`json.loads` is applied to the last-modified column instead — so, when the
prior table contents also carry the serialized empty list (as every table
this program writes does), every cached row and every descriptor a
successful search returns carries the raw serialized text in its
parameters field, never a nonempty parameter list. -/
theorem c10_claim (prior : List ReportRow) (results : List CatalogItem)
    (q : String) (h : ∀ r ∈ prior, r.parameters = "[]") :
    (∀ r ∈ _build_reports_cache prior results, r.parameters = "[]")
    ∧ (∀ out, search_reports (_build_reports_cache prior results) q = some out →
        ∀ d ∈ out, d.parameters = "[]") := by
  have hbuild : ∀ r ∈ _build_reports_cache prior results, r.parameters = "[]" := by
    intro r hr
    rcases mem_build_cases results prior r hr with h' | ⟨item, _, rfl⟩
    · exact h r h'
    · rfl
  refine ⟨hbuild, ?_⟩
  intro out hout d hd
  obtain ⟨row, hrow, hrec⟩ := reconstructAll_mem
    (sqlSelect (_build_reports_cache prior results) q) out hout d hd
  have hrowp : row.parameters = "[]" := hbuild row (List.mem_filter.mp hrow).1
  unfold reconstructRow at hrec
  by_cases hacc : jsonAccepts row.last_modified = true
  · rw [if_pos hacc] at hrec
    injection hrec with hrec
    subst hrec
    exact hrowp
  · rw [if_neg hacc] at hrec
    exact absurd hrec (by simp)

/-- C10 witness: the fresh item's stored row carries the serialized empty
list in its parameters column. -/
theorem c10_witness : (rowOfItem itemJ).parameters = "[]" :=
  (c10_claim [] [itemJ] "" (by simp)).1 (rowOfItem itemJ) (by decide)
